import Mathlib

/-!
Verification of the Indonesian license-plate text pipeline from
`src/flow_testing.ipynb`.

The notebook's own logic consists of three functions:

* `extract_indonesian_plate_format(text)` — cleans the OCR text with
  `re.sub(r'\s+', '', text.upper())` and matches it against the anchored
  regex `^([A-Z]{1,2})(\d{1,4})([A-Z]{1,3})$` via `re.match`; on success it
  returns the formatted plate `f"{g1} {g2} {g3}"` and the region code `g1`,
  otherwise `(None, None)`.
* `get_region_info(region_code)` — looks the code up in the static
  `cityCode_dict` (values are either a single name or a list of names,
  joined with `', '.join`), with the sentinel
  `"Region not found in database"` for absent keys.
* `process_alpr_results` — loops over the detections in order, keeps the
  ones whose text extracts, and assembles a result dictionary per kept
  detection.

The embedding works on `List Char`. The character classes `[A-Z]`, `\d`
and `\s`, and `str.upper`, are modelled on the ASCII range (the regex
classes `[A-Z]` and the cleaned inputs the claims speak about are ASCII).
The regex engine is modelled faithfully as a backtracking matcher that
tries greedy group lengths longest-first, exactly as Python's `re` does on
this pattern.
-/

namespace ALPR

/-- Membership in the regex class `[A-Z]` (codepoints 65–90). -/
def isUpperC (c : Char) : Bool := 65 ≤ c.toNat && c.toNat ≤ 90

/-- Membership in `[a-z]` (codepoints 97–122), the characters moved by
`str.upper` in the ASCII range. -/
def isLowerC (c : Char) : Bool := 97 ≤ c.toNat && c.toNat ≤ 122

/-- Membership in the regex class `\d`, ASCII range: `[0-9]` (codepoints 48–57). -/
def isDigitC (c : Char) : Bool := 48 ≤ c.toNat && c.toNat ≤ 57

/-- Membership in the regex class `\s`, ASCII range: space, tab, newline,
vertical tab, form feed, carriage return. -/
def isSpaceC (c : Char) : Bool :=
  c.toNat = 32 || c.toNat = 9 || c.toNat = 10 || c.toNat = 11 || c.toNat = 12 || c.toNat = 13

/-- One character of `str.upper`, ASCII range: `a`–`z` maps to `A`–`Z`,
everything else is unchanged. -/
def toUpperChar (c : Char) : Char :=
  if 97 ≤ c.toNat && c.toNat ≤ 122 then Char.ofNat (c.toNat - 32) else c

/-- `re.sub(r'\s+', '', text.upper())`: upper-case every character, then
delete every whitespace character. -/
def normalize (text : List Char) : List Char :=
  (text.map toUpperChar).filter (fun c => !(isSpaceC c))

/-- Match exactly `n` characters of class `p` at the front of `s`,
returning the matched group and the rest of the input. -/
def takeExact (p : Char → Bool) : Nat → List Char → Option (List Char × List Char)
  | 0, s => some ([], s)
  | _ + 1, [] => none
  | n + 1, c :: s =>
    if p c then (takeExact p n s).map (fun gr => (c :: gr.1, gr.2)) else none

/-- First success of `f` over a list of candidates: the backtracking order
of a regex engine trying quantifier lengths in sequence. -/
def firstSome {α β : Type} (f : α → Option β) : List α → Option β
  | [] => none
  | a :: as =>
    match f a with
    | some b => some b
    | none => firstSome f as

/-- The tail `([A-Z]{1,3})$` of the plate regex: a greedy quantifier tries
lengths 3, 2, 1 in that order, and the anchor requires the remainder to be
empty. Returns the captured group. -/
def matchTail (s : List Char) : Option (List Char) :=
  firstSome
    (fun n =>
      match takeExact isUpperC n s with
      | some gr => if gr.2 = [] then some gr.1 else none
      | none => none)
    [3, 2, 1]

/-- The part `(\d{1,4})([A-Z]{1,3})$` of the plate regex: the digit group
tries lengths 4, 3, 2, 1 greedily, then the letter tail must match.
Returns the two captured groups. -/
def matchNumTail (s : List Char) : Option (List Char × List Char) :=
  firstSome
    (fun n =>
      match takeExact isDigitC n s with
      | some gr => (matchTail gr.2).map (fun suf => (gr.1, suf))
      | none => none)
    [4, 3, 2, 1]

/-- `re.match(r'^([A-Z]{1,2})(\d{1,4})([A-Z]{1,3})$', s)`: the region-code
group tries lengths 2, 1 greedily, then the rest of the pattern must
match. Returns the three captured groups `(region, number, tail letters)`.
(The input is whitespace-free in every use, so the `$`-before-final-newline
subtlety of Python's `$` cannot arise.) -/
def matchPlate (s : List Char) : Option (List Char × List Char × List Char) :=
  firstSome
    (fun n =>
      match takeExact isUpperC n s with
      | some gr => (matchNumTail gr.2).map (fun p => (gr.1, p.1, p.2))
      | none => none)
    [2, 1]

/-- `f"{region_code} {numbers} {suffix}"`. -/
def format_plate (rc num suf : List Char) : List Char :=
  rc ++ ' ' :: (num ++ ' ' :: suf)

/-- A value of `cityCode_dict`: in the notebook the values are either a
single name (a `str`) or a list of names. -/
inductive RegionVal where
  | single (name : String)
  | multiple (names : List String)
deriving DecidableEq

/-- The static `cityCode_dict`, in source order. -/
def cityCode_dict : List (String × RegionVal) :=
  [("AA", .multiple ["Purworejo", "Temanggung", "Magelang", "Wonosobo", "Kebumen"]),
   ("B", .multiple ["DKI Jakarta", "Bekasi", "Depok", "Tangerang"]),
   ("D", .multiple ["Bandung", "Bandung Barat", "Cimahi"]),
   ("AG", .multiple ["Tulungagung", "Kediri", "Blitar", "Trenggalek", "Nganjuk"]),
   ("BA", .single "Sumatera Barat"),
   ("BP", .single "Kepulauan Riau"),
   ("DK", .single "Bali"),
   ("H", .single "Semarang"),
   ("L", .single "Surabaya"),
   ("M", .single "Madura"),
   ("N", .multiple ["Malang", "Pasuruan", "Probolinggo", "Batu", "Lumajang"]),
   ("PA", .single "Papua"),
   ("PB", .single "Papua Barat"),
   ("S", .multiple ["Tuban", "Jombang", "Bojonegoro", "Lamongan", "Mojokerto"]),
   ("W", .multiple ["Gresik", "Sidoarjo"])]

/-- Python's `', '.join(names)`. -/
def join_comma : List String → String
  | [] => ""
  | [x] => x
  | x :: y :: xs => x ++ ", " ++ join_comma (y :: xs)

/-- `get_region_info`: dictionary lookup, `', '.join` for list values, the
value itself for string values, and a fixed sentinel for absent keys. -/
def get_region_info (region_code : String) : String :=
  match cityCode_dict.lookup region_code with
  | some (.single name) => name
  | some (.multiple names) => join_comma names
  | none => "Region not found in database"

/-- `extract_indonesian_plate_format`: clean the text, match the plate
regex, and return the Python pair
`(formatted_plate, region_code)` / `(None, None)`. -/
def extract_indonesian_plate_format (text : List Char) :
    Option (List Char) × Option (List Char) :=
  let clean_text := normalize text
  match matchPlate clean_text with
  | some g => (some (format_plate g.1 g.2.1 g.2.2), some g.1)
  | none => (none, none)

/-- One upstream detection: the OCR text, `prediction.ocr.confidence` and
`prediction.bbox_xyxy` (confidences and coordinates are modelled as
rationals; the pipeline only passes them through). -/
structure Detection where
  text : List Char
  confidence : ℚ
  bbox : List ℚ
deriving DecidableEq

/-- The `plate_info` dictionary assembled per kept detection. -/
structure PlateRecord where
  original_text : List Char
  formatted_plate : List Char
  region_code : List Char
  region_info : String
  confidence : ℚ
  bbox : List ℚ
deriving DecidableEq

/-- The loop body of `process_alpr_results` on one detection: extract, test
`if formatted_plate and region_code` (Python truthiness: both values are
non-`None` and non-empty), and build the `plate_info` dictionary. -/
def process_detection (d : Detection) : Option PlateRecord :=
  match extract_indonesian_plate_format d.text with
  | (some fp, some rc) =>
    if fp ≠ [] ∧ rc ≠ [] then
      some
        { original_text := d.text
          formatted_plate := fp
          region_code := rc
          region_info := get_region_info (String.mk rc)
          confidence := d.confidence
          bbox := d.bbox }
    else none
  | (_, _) => none

/-- `process_alpr_results`: iterate over the detections in order, appending
a `plate_info` record for each detection whose text extracts. -/
def process_alpr_results : List Detection → List PlateRecord
  | [] => []
  | d :: ds =>
    match process_detection d with
    | some r => r :: process_alpr_results ds
    | none => process_alpr_results ds

end ALPR

namespace ALPR

theorem toNat_ofNat_valid (n : Nat) (h : n < 55296) : (Char.ofNat n).toNat = n := by
  rw [Char.ofNat, dif_pos (Or.inl h)]
  simp [Char.ofNatAux, Char.toNat, UInt32.toNat]

theorem toUpperChar_eq_self (c : Char) (h : isLowerC c = false) : toUpperChar c = c := by
  rw [toUpperChar, if_neg]
  simp only [isLowerC, Bool.and_eq_false_iff, decide_eq_false_iff_not, not_le] at h
  simp only [Bool.and_eq_true, decide_eq_true_eq, not_and, not_le]
  omega

theorem toNat_toUpperChar_lower (c : Char) (h : isLowerC c = true) :
    (toUpperChar c).toNat = c.toNat - 32 := by
  simp only [isLowerC, Bool.and_eq_true, decide_eq_true_eq] at h
  rw [toUpperChar, if_pos (by simp [h.1, h.2])]
  exact toNat_ofNat_valid _ (by omega)

theorem isUpperC_toUpperChar (c : Char) (h : isLowerC c = true) :
    isUpperC (toUpperChar c) = true := by
  have h2 := toNat_toUpperChar_lower c h
  simp only [isLowerC, Bool.and_eq_true, decide_eq_true_eq] at h
  simp only [isUpperC, h2, Bool.and_eq_true, decide_eq_true_eq]
  omega

theorem isSpaceC_toUpperChar (c : Char) : isSpaceC (toUpperChar c) = isSpaceC c := by
  cases h : isLowerC c with
  | false => rw [toUpperChar_eq_self c h]
  | true =>
    have h2 := toNat_toUpperChar_lower c h
    simp only [isLowerC, Bool.and_eq_true, decide_eq_true_eq] at h
    have e1 : isSpaceC (toUpperChar c) = false := by
      simp only [isSpaceC, h2]
      simp
      omega
    have e2 : isSpaceC c = false := by
      simp only [isSpaceC]
      simp
      omega
    rw [e1, e2]


theorem toUpperChar_idem (c : Char) : toUpperChar (toUpperChar c) = toUpperChar c := by
  cases h : isLowerC c with
  | false => rw [toUpperChar_eq_self c h, toUpperChar_eq_self c h]
  | true =>
    apply toUpperChar_eq_self
    have h2 := isUpperC_toUpperChar c h
    simp only [isUpperC, Bool.and_eq_true, decide_eq_true_eq] at h2
    simp only [isLowerC, Bool.and_eq_false_iff]
    left
    simp
    omega

theorem isLowerC_false_of_upper (c : Char) (h : isUpperC c = true) : isLowerC c = false := by
  simp only [isUpperC, Bool.and_eq_true, decide_eq_true_eq] at h
  simp only [isLowerC, Bool.and_eq_false_iff]
  left
  simp
  omega

theorem isLowerC_false_of_digit (c : Char) (h : isDigitC c = true) : isLowerC c = false := by
  simp only [isDigitC, Bool.and_eq_true, decide_eq_true_eq] at h
  simp only [isLowerC, Bool.and_eq_false_iff]
  left
  simp
  omega

theorem isSpaceC_false_of_upper (c : Char) (h : isUpperC c = true) : isSpaceC c = false := by
  simp only [isUpperC, Bool.and_eq_true, decide_eq_true_eq] at h
  simp only [isSpaceC]
  simp
  omega

theorem isSpaceC_false_of_digit (c : Char) (h : isDigitC c = true) : isSpaceC c = false := by
  simp only [isDigitC, Bool.and_eq_true, decide_eq_true_eq] at h
  simp only [isSpaceC]
  simp
  omega

theorem isUpperC_false_of_digit (c : Char) (h : isDigitC c = true) : isUpperC c = false := by
  simp only [isDigitC, Bool.and_eq_true, decide_eq_true_eq] at h
  simp only [isUpperC, Bool.and_eq_false_iff]
  left
  simp
  omega

theorem isDigitC_false_of_upper (c : Char) (h : isUpperC c = true) : isDigitC c = false := by
  simp only [isUpperC, Bool.and_eq_true, decide_eq_true_eq] at h
  simp only [isDigitC, Bool.and_eq_false_iff]
  right
  simp
  omega


theorem normalize_nil : normalize [] = [] := rfl

theorem normalize_cons (c : Char) (s : List Char) :
    normalize (c :: s) =
      if isSpaceC (toUpperChar c) then normalize s else toUpperChar c :: normalize s := by
  simp only [normalize, List.map_cons, List.filter_cons]
  cases h : isSpaceC (toUpperChar c) <;> simp [h]

theorem normalize_append (a b : List Char) :
    normalize (a ++ b) = normalize a ++ normalize b := by
  simp [normalize, List.filter_append]

theorem normalize_eq_self (s : List Char)
    (h : ∀ c ∈ s, isLowerC c = false ∧ isSpaceC c = false) : normalize s = s := by
  induction s with
  | nil => rfl
  | cons c t ih =>
    obtain ⟨h1, h2⟩ := h c (List.mem_cons_self c t)
    rw [normalize_cons, toUpperChar_eq_self c h1, if_neg (by simp [h2])]
    rw [ih (fun x hx => h x (List.mem_cons_of_mem c hx))]

theorem normalize_idem (s : List Char) : normalize (normalize s) = normalize s := by
  induction s with
  | nil => rfl
  | cons c t ih =>
    rw [normalize_cons]
    by_cases h : isSpaceC (toUpperChar c) = true
    · rw [if_pos h]
      exact ih
    · rw [if_neg h, normalize_cons, toUpperChar_idem, if_neg h, ih]

theorem takeExact_sound (p : Char → Bool) :
    ∀ (n : Nat) (s g r : List Char), takeExact p n s = some (g, r) →
      g.length = n ∧ (∀ c ∈ g, p c = true) ∧ s = g ++ r := by
  intro n
  induction n with
  | zero =>
    intro s g r h
    simp only [takeExact, Option.some.injEq, Prod.mk.injEq] at h
    obtain ⟨h1, h2⟩ := h
    subst h1; subst h2
    simp
  | succ n ih =>
    intro s g r h
    cases s with
    | nil => simp [takeExact] at h
    | cons c t =>
      simp only [takeExact] at h
      by_cases hp : p c = true
      · rw [if_pos hp] at h
        obtain ⟨⟨g0, r0⟩, hg, he⟩ := Option.map_eq_some'.mp h
        obtain ⟨hl, hall, ht⟩ := ih t g0 r0 hg
        simp only [Prod.mk.injEq] at he
        obtain ⟨he1, he2⟩ := he
        subst he1; subst he2
        refine ⟨by simp [hl], ?_, by simp [ht]⟩
        intro x hx
        rcases List.mem_cons.mp hx with hx | hx
        · subst hx; exact hp
        · exact hall x hx
      · rw [if_neg hp] at h
        exact absurd h (by simp)

theorem takeExact_all_front (p : Char → Bool) (a r : List Char)
    (h : ∀ c ∈ a, p c = true) : takeExact p a.length (a ++ r) = some (a, r) := by
  induction a with
  | nil => simp [takeExact]
  | cons c t ih =>
    simp only [List.length_cons, List.cons_append, takeExact, List.append_eq]
    rw [if_pos (h c (List.mem_cons_self c t))]
    rw [ih (fun x hx => h x (List.mem_cons_of_mem c hx))]
    rfl

theorem takeExact_too_short (p : Char → Bool) :
    ∀ (n : Nat) (s : List Char), s.length < n → takeExact p n s = none := by
  intro n
  induction n with
  | zero => intro s h; omega
  | succ n ih =>
    intro s h
    cases s with
    | nil => simp [takeExact]
    | cons c t =>
      simp only [takeExact]
      rw [ih t (by simpa using h)]
      by_cases hp : p c = true
      · rw [if_pos hp]; rfl
      · rw [if_neg hp]

theorem takeExact_stuck (p : Char → Bool) :
    ∀ (a : List Char) (c : Char) (r : List Char) (n : Nat),
      (∀ x ∈ a, p x = true) → p c = false → a.length < n →
      takeExact p n (a ++ c :: r) = none := by
  intro a
  induction a with
  | nil =>
    intro c r n _ hc hn
    cases n with
    | zero => omega
    | succ m =>
      simp only [List.nil_append, takeExact]
      rw [if_neg (by simp [hc])]
  | cons x t ih =>
    intro c r n ha hc hn
    cases n with
    | zero => omega
    | succ m =>
      simp only [List.cons_append, takeExact, List.append_eq]
      rw [if_pos (ha x (List.mem_cons_self x t))]
      rw [ih c r m (fun y hy => ha y (List.mem_cons_of_mem x hy)) hc (by simpa using hn)]
      rfl

theorem firstSome_eq_some {α β : Type} (f : α → Option β) :
    ∀ (l : List α) (b : β), firstSome f l = some b → ∃ a ∈ l, f a = some b := by
  intro l
  induction l with
  | nil => intro b h; simp [firstSome] at h
  | cons x t ih =>
    intro b h
    simp only [firstSome] at h
    cases hx : f x with
    | some y =>
      rw [hx] at h
      have h2 : some y = some b := h
      exact ⟨x, List.mem_cons_self x t, by rw [hx, h2]⟩
    | none =>
      rw [hx] at h
      have h2 : firstSome f t = some b := h
      obtain ⟨a, ha, hfa⟩ := ih b h2
      exact ⟨a, List.mem_cons_of_mem x ha, hfa⟩


theorem matchTail_sound (s g : List Char) (h : matchTail s = some g) :
    g = s ∧ (∀ c ∈ s, isUpperC c = true) ∧ 1 ≤ s.length ∧ s.length ≤ 3 := by
  obtain ⟨n, hn, hb⟩ := firstSome_eq_some _ _ _ h
  cases hx : takeExact isUpperC n s with
  | none => rw [hx] at hb; exact absurd hb (by simp)
  | some gr =>
    rw [hx] at hb
    obtain ⟨g0, r0⟩ := gr
    have hb2 : (if r0 = [] then some g0 else none) = some g := hb
    by_cases hr : r0 = []
    · rw [if_pos hr] at hb2
      have hg : g0 = g := by simpa using hb2
      obtain ⟨hl, hall, hs⟩ := takeExact_sound isUpperC n s g0 r0 hx
      subst hr
      rw [List.append_nil] at hs
      subst hg
      subst hs
      have hn3 : n = 3 ∨ n = 2 ∨ n = 1 := by simpa using hn
      exact ⟨rfl, hall, by omega, by omega⟩
    · rw [if_neg hr] at hb2
      exact absurd hb2 (by simp)

theorem matchNumTail_sound (s g1 g2 : List Char) (h : matchNumTail s = some (g1, g2)) :
    s = g1 ++ g2 ∧ (∀ c ∈ g1, isDigitC c = true) ∧ 1 ≤ g1.length ∧ g1.length ≤ 4 ∧
      (∀ c ∈ g2, isUpperC c = true) ∧ 1 ≤ g2.length ∧ g2.length ≤ 3 := by
  obtain ⟨n, hn, hb⟩ := firstSome_eq_some _ _ _ h
  cases hx : takeExact isDigitC n s with
  | none => rw [hx] at hb; exact absurd hb (by simp)
  | some gr =>
    rw [hx] at hb
    obtain ⟨a, r⟩ := gr
    have hb2 : (matchTail r).map (fun suf => (a, suf)) = some (g1, g2) := hb
    obtain ⟨suf, hsuf, heq⟩ := Option.map_eq_some'.mp hb2
    obtain ⟨hl, hall, hs⟩ := takeExact_sound isDigitC n s a r hx
    obtain ⟨hg, hup, h1, h3⟩ := matchTail_sound r suf hsuf
    simp only [Prod.mk.injEq] at heq
    obtain ⟨he1, he2⟩ := heq
    subst he1
    subst he2
    subst hg
    have hn4 : n = 4 ∨ n = 3 ∨ n = 2 ∨ n = 1 := by simpa using hn
    exact ⟨hs, hall, by omega, by omega, hup, h1, h3⟩

theorem matchPlate_sound (s a b c : List Char) (h : matchPlate s = some (a, b, c)) :
    s = a ++ (b ++ c) ∧
      (∀ x ∈ a, isUpperC x = true) ∧ 1 ≤ a.length ∧ a.length ≤ 2 ∧
      (∀ x ∈ b, isDigitC x = true) ∧ 1 ≤ b.length ∧ b.length ≤ 4 ∧
      (∀ x ∈ c, isUpperC x = true) ∧ 1 ≤ c.length ∧ c.length ≤ 3 := by
  obtain ⟨n, hn, hb⟩ := firstSome_eq_some _ _ _ h
  cases hx : takeExact isUpperC n s with
  | none => rw [hx] at hb; exact absurd hb (by simp)
  | some gr =>
    rw [hx] at hb
    obtain ⟨a0, r⟩ := gr
    have hb2 : (matchNumTail r).map (fun p => (a0, p.1, p.2)) = some (a, b, c) := hb
    obtain ⟨pr, hpr, heq⟩ := Option.map_eq_some'.mp hb2
    obtain ⟨b0, c0⟩ := pr
    obtain ⟨hl, hall, hs⟩ := takeExact_sound isUpperC n s a0 r hx
    obtain ⟨hr2, hdig, hb1, hb4, hup, hc1, hc3⟩ := matchNumTail_sound r b0 c0 hpr
    simp only [Prod.mk.injEq] at heq
    obtain ⟨he1, he2, he3⟩ := heq
    subst he1
    subst he2
    subst he3
    subst hr2
    have hn2 : n = 2 ∨ n = 1 := by simpa using hn
    exact ⟨hs, hall, by omega, by omega, hdig, hb1, hb4, hup, hc1, hc3⟩

theorem matchTail_complete (s : List Char) (hall : ∀ c ∈ s, isUpperC c = true)
    (h1 : 1 ≤ s.length) (h3 : s.length ≤ 3) : matchTail s = some s := by
  have hp := takeExact_all_front isUpperC s [] hall
  rw [List.append_nil] at hp
  rcases (by omega : s.length = 1 ∨ s.length = 2 ∨ s.length = 3) with h|h|h <;> rw [h] at hp
  · simp [matchTail, firstSome, takeExact_too_short isUpperC 3 s (by omega),
      takeExact_too_short isUpperC 2 s (by omega), hp]
  · simp [matchTail, firstSome, takeExact_too_short isUpperC 3 s (by omega), hp]
  · simp [matchTail, firstSome, hp]

theorem matchNumTail_complete (b c : List Char)
    (hb : ∀ x ∈ b, isDigitC x = true) (hb1 : 1 ≤ b.length) (hb4 : b.length ≤ 4)
    (hc : ∀ x ∈ c, isUpperC x = true) (hc1 : 1 ≤ c.length) (hc3 : c.length ≤ 3) :
    matchNumTail (b ++ c) = some (b, c) := by
  have hp := takeExact_all_front isDigitC b c hb
  have hmt := matchTail_complete c hc hc1 hc3
  obtain ⟨c0, c2, rfl⟩ : ∃ c0 c2, c = c0 :: c2 := by
    cases c with
    | nil => simp at hc1
    | cons x xs => exact ⟨x, xs, rfl⟩
  have hc0 : isDigitC c0 = false :=
    isDigitC_false_of_upper c0 (hc c0 (List.mem_cons_self c0 c2))
  have hstuck : ∀ n, b.length < n → takeExact isDigitC n (b ++ c0 :: c2) = none :=
    fun n hn => takeExact_stuck isDigitC b c0 c2 n hb hc0 hn
  rcases (by omega : b.length = 1 ∨ b.length = 2 ∨ b.length = 3 ∨ b.length = 4)
    with h|h|h|h <;> rw [h] at hp
  · simp [matchNumTail, firstSome, hstuck 4 (by omega), hstuck 3 (by omega),
      hstuck 2 (by omega), hp, hmt]
  · simp [matchNumTail, firstSome, hstuck 4 (by omega), hstuck 3 (by omega), hp, hmt]
  · simp [matchNumTail, firstSome, hstuck 4 (by omega), hp, hmt]
  · simp [matchNumTail, firstSome, hp, hmt]

theorem matchPlate_complete (a b c : List Char)
    (ha : ∀ x ∈ a, isUpperC x = true) (ha1 : 1 ≤ a.length) (ha2 : a.length ≤ 2)
    (hb : ∀ x ∈ b, isDigitC x = true) (hb1 : 1 ≤ b.length) (hb4 : b.length ≤ 4)
    (hc : ∀ x ∈ c, isUpperC x = true) (hc1 : 1 ≤ c.length) (hc3 : c.length ≤ 3) :
    matchPlate (a ++ (b ++ c)) = some (a, b, c) := by
  have hp := takeExact_all_front isUpperC a (b ++ c) ha
  have hnt := matchNumTail_complete b c hb hb1 hb4 hc hc1 hc3
  obtain ⟨b0, b2, rfl⟩ : ∃ b0 b2, b = b0 :: b2 := by
    cases b with
    | nil => simp at hb1
    | cons x xs => exact ⟨x, xs, rfl⟩
  have hb0 : isUpperC b0 = false :=
    isUpperC_false_of_digit b0 (hb b0 (List.mem_cons_self b0 b2))
  have hstuck : ∀ n, a.length < n → takeExact isUpperC n (a ++ (b0 :: (b2 ++ c))) = none :=
    fun n hn => takeExact_stuck isUpperC a b0 (b2 ++ c) n ha hb0 hn
  simp only [List.cons_append] at hp hnt
  rcases (by omega : a.length = 1 ∨ a.length = 2) with h|h <;> rw [h] at hp
  · simp [matchPlate, firstSome, hstuck 2 (by omega), hp, hnt]
  · simp [matchPlate, firstSome, hp, hnt]


theorem format_plate_ne_nil (rc num suf : List Char) : format_plate rc num suf ≠ [] := by
  simp [format_plate]

/-- C1: on whitespace-free upper-cased input, `re.match` of the plate pattern
succeeds exactly when the string is 1–2 uppercase letters, then 1–4 digits,
then 1–3 uppercase letters, with nothing before or after; any other string —
including the two overlong examples — yields no result. -/
theorem C1_parse_iff_grammar :
    (∀ s : List Char, (matchPlate s).isSome = true ↔
      ∃ a b c : List Char, s = a ++ (b ++ c) ∧
        (∀ x ∈ a, isUpperC x = true) ∧ 1 ≤ a.length ∧ a.length ≤ 2 ∧
        (∀ x ∈ b, isDigitC x = true) ∧ 1 ≤ b.length ∧ b.length ≤ 4 ∧
        (∀ x ∈ c, isUpperC x = true) ∧ 1 ≤ c.length ∧ c.length ≤ 3) ∧
    matchPlate "D12345ABC".data = none ∧ matchPlate "D1ABCDEF".data = none := by
  refine ⟨fun s => ⟨?_, ?_⟩, by decide, by decide⟩
  · intro h
    obtain ⟨⟨a, b, c⟩, hm⟩ := Option.isSome_iff_exists.mp h
    obtain ⟨hs, h1, h2, h3, h4, h5, h6, h7, h8, h9⟩ := matchPlate_sound s a b c hm
    exact ⟨a, b, c, hs, h1, h2, h3, h4, h5, h6, h7, h8, h9⟩
  · rintro ⟨a, b, c, rfl, h1, h2, h3, h4, h5, h6, h7, h8, h9⟩
    rw [matchPlate_complete a b c h1 h2 h3 h4 h5 h6 h7 h8 h9]
    rfl

/-- C8: whenever the plate regex accepts, the captured region code is the whole
maximal leading run of uppercase letters, the digit group is the whole following
maximal run of digits, and the letter tail is everything after it: the split
produced by greedy matching. -/
theorem C8_greedy_region_code (s a b c : List Char) (h : matchPlate s = some (a, b, c)) :
    a = s.takeWhile isUpperC ∧
    b = (s.drop a.length).takeWhile isDigitC ∧
    c = s.drop (a.length + b.length) := by
  obtain ⟨hs, ha, ha1, ha2, hbd, hb1, hb4, hcu, hc1, hc3⟩ := matchPlate_sound s a b c h
  subst hs
  obtain ⟨b0, b2, rfl⟩ : ∃ b0 b2, b = b0 :: b2 := by
    cases b with
    | nil => simp at hb1
    | cons x xs => exact ⟨x, xs, rfl⟩
  obtain ⟨c0, c2, rfl⟩ : ∃ c0 c2, c = c0 :: c2 := by
    cases c with
    | nil => simp at hc1
    | cons x xs => exact ⟨x, xs, rfl⟩
  have hb0 : isUpperC b0 = false :=
    isUpperC_false_of_digit b0 (hbd b0 (List.mem_cons_self b0 b2))
  have hc0 : isDigitC c0 = false :=
    isDigitC_false_of_upper c0 (hcu c0 (List.mem_cons_self c0 c2))
  refine ⟨?_, ?_, ?_⟩
  · rw [List.takeWhile_append_of_pos ha, List.cons_append,
      List.takeWhile_cons_of_neg (by simp [hb0]), List.append_nil]
  · rw [List.drop_left, List.takeWhile_append_of_pos hbd,
      List.takeWhile_cons_of_neg (by simp [hc0]), List.append_nil]
  · rw [show a.length + (b0 :: b2).length = (a ++ (b0 :: b2)).length by simp,
      ← List.append_assoc, List.drop_left]

/-- C9: `extract_indonesian_plate_format` returns both components or neither:
its result is always `(some, some)` or `(None, None)`. -/
theorem C9_both_or_neither (text : List Char) :
    (∃ fp rc, extract_indonesian_plate_format text = (some fp, some rc)) ∨
    extract_indonesian_plate_format text = (none, none) := by
  cases h : matchPlate (normalize text) with
  | some g =>
    exact Or.inl ⟨format_plate g.1 g.2.1 g.2.2, g.1,
      by simp [extract_indonesian_plate_format, h]⟩
  | none => exact Or.inr (by simp [extract_indonesian_plate_format, h])

/-- C10: formatting a successful parse and re-normalizing gives back exactly
the normalized text that was parsed, and re-parsing it returns the same three
groups. -/
theorem C10_format_reparse_roundtrip (s a b c : List Char)
    (h : matchPlate s = some (a, b, c)) :
    normalize (format_plate a b c) = s ∧
    matchPlate (normalize (format_plate a b c)) = some (a, b, c) := by
  obtain ⟨hs, ha, ha1, ha2, hbd, hb1, hb4, hcu, hc1, hc3⟩ := matchPlate_sound s a b c h
  have hna : normalize a = a :=
    normalize_eq_self a (fun x hx =>
      ⟨isLowerC_false_of_upper x (ha x hx), isSpaceC_false_of_upper x (ha x hx)⟩)
  have hnb : normalize b = b :=
    normalize_eq_self b (fun x hx =>
      ⟨isLowerC_false_of_digit x (hbd x hx), isSpaceC_false_of_digit x (hbd x hx)⟩)
  have hnc : normalize c = c :=
    normalize_eq_self c (fun x hx =>
      ⟨isLowerC_false_of_upper x (hcu x hx), isSpaceC_false_of_upper x (hcu x hx)⟩)
  have hsp : normalize [' '] = [] := rfl
  have key : normalize (format_plate a b c) = a ++ (b ++ c) := by
    have e : format_plate a b c = a ++ ([' '] ++ (b ++ ([' '] ++ c))) := by
      simp [format_plate]
    rw [e, normalize_append, normalize_append, normalize_append, normalize_append,
      hsp, hna, hnb, hnc, List.nil_append, List.nil_append]
  exact ⟨by rw [key, hs], by rw [key, ← hs]; exact h⟩


/-- C2: the per-detection step normalizes and parses the text; a failed parse
drops the detection, a successful parse emits exactly one record carrying the
untouched raw text, the formatted plate, the region code, the resolved region
info, and the untouched confidence and bounding box — with the spec\'s two
end-to-end examples. -/
theorem C2_process_detection_spec :
    (∀ (text : List Char) (conf : ℚ) (bb : List ℚ),
      process_detection ⟨text, conf, bb⟩ =
        (matchPlate (normalize text)).map (fun g =>
          { original_text := text
            formatted_plate := format_plate g.1 g.2.1 g.2.2
            region_code := g.1
            region_info := get_region_info (String.mk g.1)
            confidence := conf
            bbox := bb })) ∧
    process_detection ⟨"d1234abc".data, 92/100, [10, 20, 100, 50]⟩ =
      some { original_text := "d1234abc".data
             formatted_plate := "D 1234 ABC".data
             region_code := "D".data
             region_info := "Bandung, Bandung Barat, Cimahi"
             confidence := 92/100
             bbox := [10, 20, 100, 50] } ∧
    process_detection ⟨"###".data, 1/2, [0, 0, 1, 1]⟩ = none := by
  have gen : ∀ (text : List Char) (conf : ℚ) (bb : List ℚ),
      process_detection ⟨text, conf, bb⟩ =
        (matchPlate (normalize text)).map (fun g =>
          { original_text := text
            formatted_plate := format_plate g.1 g.2.1 g.2.2
            region_code := g.1
            region_info := get_region_info (String.mk g.1)
            confidence := conf
            bbox := bb }) := by
    intro text conf bb
    cases hm : matchPlate (normalize text) with
    | none => simp [process_detection, extract_indonesian_plate_format, hm]
    | some g =>
      obtain ⟨a, b, c⟩ := g
      obtain ⟨hs, ha, ha1, ha2, hbd, hb1, hb4, hcu, hc1, hc3⟩ :=
        matchPlate_sound (normalize text) a b c hm
      have hane : a ≠ [] := by
        intro hnil
        rw [hnil] at ha1
        simp at ha1
      simp [process_detection, extract_indonesian_plate_format, hm,
        format_plate_ne_nil a b c, hane]
  refine ⟨gen, ?_, ?_⟩
  · rw [gen]
    have hm : matchPlate (normalize "d1234abc".data) =
        some ("D".data, "1234".data, "ABC".data) := by decide
    rw [hm]
    rfl
  · rw [gen]
    have hm : matchPlate (normalize "###".data) =
        (none : Option (List Char × List Char × List Char)) := by decide
    rw [hm]
    rfl

/-- C3 counterexample: the input `"#"` contains no whitespace and no letter,
`normalize` keeps it unchanged, and the result contains a character that is
neither an uppercase letter nor a digit — so the claimed invariant fails for
arbitrary input strings. -/
theorem C3_counterexample :
    ((normalize "#".data).all (fun c => isUpperC c || isDigitC c)) = false := by
  decide

/-- C3 amended: for inputs made only of whitespace and ASCII letters and
digits, everything `normalize` lets through is an uppercase letter or a
digit. -/
theorem C3_normalize_alnum (s : List Char)
    (h : ∀ c ∈ s, isSpaceC c = true ∨ isLowerC c = true ∨ isUpperC c = true ∨
      isDigitC c = true) :
    (normalize s).all (fun c => isUpperC c || isDigitC c) = true := by
  induction s with
  | nil => rfl
  | cons c t ih =>
    rw [normalize_cons]
    have hrest := ih (fun x hx => h x (List.mem_cons_of_mem c hx))
    by_cases hsp : isSpaceC (toUpperChar c) = true
    · rw [if_pos hsp]
      exact hrest
    · rw [if_neg hsp]
      rcases h c (List.mem_cons_self c t) with hc | hc | hc | hc
      · exact absurd (by rw [isSpaceC_toUpperChar]; exact hc) hsp
      · simp only [List.all_cons, isUpperC_toUpperChar c hc, Bool.true_or, Bool.true_and]
        exact hrest
      · rw [toUpperChar_eq_self c (isLowerC_false_of_upper c hc)]
        simp only [List.all_cons, hc, Bool.true_or, Bool.true_and]
        exact hrest
      · rw [toUpperChar_eq_self c (isLowerC_false_of_digit c hc)]
        simp only [List.all_cons, hc, Bool.or_true, Bool.true_and]
        exact hrest

theorem C3_normalize_alnum_witness :
    (normalize " a1 B".data).all (fun c => isUpperC c || isDigitC c) = true :=
  C3_normalize_alnum " a1 B".data (by decide)

/-- C4: region resolution returns the stored name for single-valued codes, the
comma-separated join in stored order for list-valued codes, and one fixed
sentinel for any code outside the table — with the spec\'s three examples. -/
theorem C4_get_region_info_spec :
    (∀ (c name : String),
        cityCode_dict.lookup c = some (RegionVal.single name) → get_region_info c = name) ∧
    (∀ (c : String) (names : List String),
        cityCode_dict.lookup c = some (RegionVal.multiple names) →
          get_region_info c = join_comma names) ∧
    (∀ c : String, cityCode_dict.lookup c = none →
        get_region_info c = "Region not found in database") ∧
    get_region_info "DK" = "Bali" ∧
    get_region_info "B" = "DKI Jakarta, Bekasi, Depok, Tangerang" ∧
    get_region_info "ZZ" = "Region not found in database" := by
  refine ⟨?_, ?_, ?_, by decide, by decide, by decide⟩
  · intro c name h
    simp [get_region_info, h]
  · intro c names h
    simp [get_region_info, h]
  · intro c h
    simp [get_region_info, h]

theorem C4_witness :
    get_region_info "DK" = "Bali" ∧
    get_region_info "B" = join_comma ["DKI Jakarta", "Bekasi", "Depok", "Tangerang"] ∧
    get_region_info "ZZ" = "Region not found in database" :=
  ⟨C4_get_region_info_spec.1 "DK" "Bali" (by decide),
   C4_get_region_info_spec.2.1 "B" ["DKI Jakarta", "Bekasi", "Depok", "Tangerang"] (by decide),
   C4_get_region_info_spec.2.2.1 "ZZ" (by decide)⟩

/-- C5: every stage is total and signals failure only through ordinary values:
a detection yields `none` or one record, a region code either sits in the table
or resolves to the sentinel, a parse yields `none` or one triple of groups, and
the per-frame loop never produces more records than detections. -/
theorem C5_total_no_exceptions :
    (∀ d : Detection, process_detection d = none ∨ ∃ r, process_detection d = some r) ∧
    (∀ c : String, (∃ v, cityCode_dict.lookup c = some v) ∨
        get_region_info c = "Region not found in database") ∧
    (∀ text : List Char, matchPlate (normalize text) = none ∨
        ∃ g, matchPlate (normalize text) = some g) ∧
    (∀ preds : List Detection, (process_alpr_results preds).length ≤ preds.length) := by
  refine ⟨?_, ?_, ?_, ?_⟩
  · intro d
    cases h : process_detection d with
    | none => exact Or.inl rfl
    | some r => exact Or.inr ⟨r, rfl⟩
  · intro c
    cases h : cityCode_dict.lookup c with
    | none => exact Or.inr (by simp [get_region_info, h])
    | some v => exact Or.inl ⟨v, rfl⟩
  · intro text
    cases h : matchPlate (normalize text) with
    | none => exact Or.inl rfl
    | some g => exact Or.inr ⟨g, rfl⟩
  · intro preds
    induction preds with
    | nil => simp [process_alpr_results]
    | cons d ds ih =>
      cases h : process_detection d with
      | none =>
        simp only [process_alpr_results, h, List.length_cons]
        omega
      | some r =>
        simp only [process_alpr_results, h, List.length_cons]
        omega

/-- C6: the per-frame output is the order-preserving filter of the detection
sequence: it equals `filterMap` of the per-detection step, and its length is
the number of detections whose text parses. -/
theorem C6_order_preserving_filter (preds : List Detection) :
    process_alpr_results preds = preds.filterMap process_detection ∧
    (process_alpr_results preds).length =
      (preds.filter (fun d => (process_detection d).isSome)).length := by
  induction preds with
  | nil => exact ⟨rfl, rfl⟩
  | cons d ds ih =>
    obtain ⟨ih1, ih2⟩ := ih
    cases hd : process_detection d with
    | none =>
      simp only [process_alpr_results, hd, List.filterMap_cons, List.filter_cons]
      simpa [hd] using ⟨ih1, ih2⟩
    | some r =>
      simp only [process_alpr_results, hd, List.filterMap_cons, List.filter_cons]
      simpa [hd] using ⟨ih1, ih2⟩

/-- C7: on strings of whitespace and mixed-case ASCII letters and digits,
`normalize` is idempotent. -/
theorem C7_normalize_idem_on_clean (s : List Char)
    (_h : ∀ c ∈ s, isSpaceC c = true ∨ isLowerC c = true ∨ isUpperC c = true ∨
      isDigitC c = true) :
    normalize (normalize s) = normalize s :=
  normalize_idem s

theorem C7_witness :
    normalize (normalize " d 1234 abc ".data) = normalize " d 1234 abc ".data :=
  C7_normalize_idem_on_clean " d 1234 abc ".data (by decide)

theorem C8_witness :
    "AB".data = List.takeWhile isUpperC "AB12C".data ∧
    "12".data = ("AB12C".data.drop "AB".data.length).takeWhile isDigitC ∧
    "C".data = "AB12C".data.drop ("AB".data.length + "12".data.length) :=
  C8_greedy_region_code "AB12C".data "AB".data "12".data "C".data (by decide)

theorem C10_witness :
    normalize (format_plate "D".data "1234".data "ABC".data) = "D1234ABC".data ∧
    matchPlate (normalize (format_plate "D".data "1234".data "ABC".data)) =
      some ("D".data, "1234".data, "ABC".data) :=
  C10_format_reparse_roundtrip "D1234ABC".data "D".data "1234".data "ABC".data (by decide)

end ALPR
